import Mathlib

/-!
Shallow embedding of the `binary_enclave` crate (src/src/lib.rs).

Bytes are modelled as natural numbers below 256; 64-bit machine words are
natural numbers reduced modulo 2 ^ 64.  The deployment targets of the crate
(x86-64 / aarch64 Linux and macOS) are little-endian, so `to_ne_bytes` is
modelled as little-endian serialization.
-/

/-- The 64-bit truncation used wherever Rust performs wrapping `u64`
arithmetic. -/
def w64 (n : Nat) : Nat := n % 18446744073709551616

/-- Little-endian serialization of `n` into `k` bytes, the model of
`usize::to_ne_bytes` / `u64::to_ne_bytes` on the little-endian targets. -/
def natToBytesLE : Nat → Nat → List Nat
  | 0, _ => []
  | k + 1, n => (n % 256) :: natToBytesLE k (n / 256)

/-- Little-endian reading of a byte sequence as a natural number. -/
def bytesToNatLE : List Nat → Nat
  | [] => 0
  | b :: bs => b + 256 * bytesToNatLE bs

/-- Left rotation of a 64-bit word (Rust `u64::rotate_left`). -/
def rotl (a r : Nat) : Nat := w64 (a <<< r) ||| (a >>> (64 - r))

/-- State of the SipHash computation: four 64-bit lanes. -/
structure SipState where
  v0 : Nat
  v1 : Nat
  v2 : Nat
  v3 : Nat

/-- One SipRound, as in Rust std's `sip.rs` (used by
`std::collections::hash_map::DefaultHasher`). -/
def sipRound (s : SipState) : SipState :=
  let a0 := w64 (s.v0 + s.v1)
  let b1 := rotl s.v1 13
  let c1 := Nat.xor b1 a0
  let a1 := rotl a0 32
  let a2 := w64 (s.v2 + s.v3)
  let b3 := rotl s.v3 16
  let c3 := Nat.xor b3 a2
  let d0 := w64 (a1 + c3)
  let d3 := rotl c3 21
  let e3 := Nat.xor d3 d0
  let d2 := w64 (a2 + c1)
  let e1 := rotl c1 17
  let f1 := Nat.xor e1 d2
  let e2 := rotl d2 32
  ⟨d0, f1, e2, e3⟩

/-- Feeding one 8-byte message word into the state: SipHash-1-3 runs a single
SipRound per word. -/
def sipCompress (s : SipState) (m : Nat) : SipState :=
  let s1 : SipState := ⟨s.v0, s.v1, s.v2, Nat.xor s.v3 m⟩
  let s2 := sipRound s1
  ⟨Nat.xor s2.v0 m, s2.v1, s2.v2, s2.v3⟩

/-- Folding a whole list of message words into the state. -/
def sipCompressList (s : SipState) : List Nat → SipState
  | [] => s
  | m :: ms => sipCompressList (sipCompress s m) ms

/-- Splits the byte stream into little-endian 8-byte message words; the final
word carries the remaining bytes padded with zeros plus the total length
modulo 256 in its top byte, exactly as the SipHash padding rule demands.
`buf` holds the bytes of the current partial word in reverse order.  Each
emitted word is reduced by `w64`, which is the identity on genuine bytes. -/
def sipBlocksGo (buf : List Nat) : List Nat → Nat → List Nat
  | [], total => [w64 (bytesToNatLE buf.reverse + (total % 256) * 72057594037927936)]
  | b :: bs, total =>
    if buf.length = 7 then
      w64 (bytesToNatLE (buf.reverse ++ [b])) :: sipBlocksGo [] bs total
    else
      sipBlocksGo (b :: buf) bs total

/-- Finalization: xor 0xff into `v2`, run three SipRounds, xor the lanes. -/
def sipFinish (s : SipState) : Nat :=
  let s1 : SipState := ⟨s.v0, s.v1, Nat.xor s.v2 255, s.v3⟩
  let s2 := sipRound (sipRound (sipRound s1))
  w64 (Nat.xor (Nat.xor s2.v0 s2.v1) (Nat.xor s2.v2 s2.v3))

/-- SipHash-1-3 with both keys zero over a byte stream: the model of
`DefaultHasher::new()` followed by `Hasher::write(bytes)` and
`Hasher::finish()` in `Enclave::decode` and `write_binary`. -/
def siphash13 (msg : List Nat) : Nat :=
  let s0 : SipState :=
    ⟨0x736f6d6570736575, 0x646f72616e646f6d, 0x6c7967656e657261, 0x7465646279746573⟩
  sipFinish (sipCompressList s0 (sipBlocksGo [] msg msg.length))

/-- The error type of the crate.  Modelled from the spec: `src/error.rs` is
referenced by `mod error;` but is not among the sources; the constructors are
those used in `lib.rs` plus the kinds named in spec section 7.  `section` is a
Lean keyword, so the second field of `SectionSizeExceeded` (called `section`
in the source) is named `sectionSize`. -/
inductive Error where
  | SectionNotFound (msg : String)
  | SectionSizeExceeded (payload : Nat) (sectionSize : Nat)
  | PayloadChecksum
  | Deserialize
  | BinaryNotLocated
  | Io
deriving DecidableEq

/-- A serde/bincode codec for a payload type `T`: `ser` models
`bincode::serialize` (total for plain data types) and `deser` models
`bincode::deserialize`, which consumes a prefix of its input and ignores
trailing bytes, returning `none` on a deserialization error. -/
structure Codec (T : Type) where
  ser : T → List Nat
  deser : List Nat → Option T

/-- The reserved region compiled into the binary (`struct Enclave` fields
`len`, `checksum`, `pack`); the capacity `SIZE` is `pack.length`. -/
structure Enclave where
  len : Nat
  checksum : Nat
  pack : List Nat
deriving DecidableEq

/-- Model of `Enclave::new()`: zero length, zero checksum, zeroed buffer. -/
def Enclave.new (SIZE : Nat) : Enclave :=
  { len := 0, checksum := 0, pack := List.replicate SIZE 0 }

/-- Model of `Enclave::decode`: first `bincode::deserialize(&self.pack)` over
the whole buffer, and only on success hash `self.pack[0..self.len]` and
compare with the stored checksum.  The Rust slice `pack[0..len]` requires
`len ≤ pack.length` (the data-model invariant); `List.take` agrees with it
exactly in that case. -/
def Enclave.decode (c : Codec T) (e : Enclave) : Except Error T :=
  match c.deser e.pack with
  | none => .error .Deserialize
  | some payload =>
    if siphash13 (e.pack.take e.len) = e.checksum then
      .ok payload
    else
      .error .PayloadChecksum

/-- Model of `Enclave::decode_or_default`; the `Default` value of `T` is
passed explicitly as `dflt`. -/
def Enclave.decode_or_default (c : Codec T) (dflt : T) (e : Enclave) : T :=
  match e.decode c with
  | .ok v => v
  | .error _ => dflt

/-- Overwriting the byte range starting at `offset` of `data` with `frame`:
the model of `Cursor::seek(Start offset)` followed by `write_all`, which
zero-fills any gap past the end of the vector before writing. -/
def writeAt (data : List Nat) (offset : Nat) (frame : List Nat) : List Nat :=
  data.take offset ++ List.replicate (offset - data.length) 0 ++ frame
    ++ data.drop (offset + frame.length)

/-- Model of the in-memory part of `write_binary` (lib.rs lines 165-187):
serialize the payload, reject it when it is longer than the section, then
splice `[len_bytes ++ checksum_bytes ++ payload]` into the file image at
`offset`.  On success it returns the patched image together with
`payload.len()`; the subsequent file-system steps (lines 189-199) are
modelled by `enclaveWrite` below. -/
def write_binary (c : Codec T) (data : List Nat) (payload : T) (offset size : Nat) :
    Except Error (List Nat × Nat) :=
  if (c.ser payload).length > size then
    .error (.SectionSizeExceeded (c.ser payload).length size)
  else
    .ok (writeAt data offset (natToBytesLE 8 (c.ser payload).length
        ++ natToBytesLE 8 (siphash13 (c.ser payload)) ++ c.ser payload),
      (c.ser payload).length)

/-- Reading the `Enclave` stored at `offset` in a file image whose `pack`
capacity is `SIZE`: an 8-byte length, an 8-byte checksum, then the buffer.
This is how the region written by `write_binary` is seen by the next process
(the `#[repr(C)]` layout of `Enclave` on the 64-bit little-endian targets). -/
def readEnclave (data : List Nat) (offset SIZE : Nat) : Enclave :=
  { len := bytesToNatLE ((data.drop offset).take 8)
    checksum := bytesToNatLE ((data.drop (offset + 8)).take 8)
    pack := (data.drop (offset + 16)).take SIZE }

/-- The on-disk state visible to other processes: the executable's bytes and
the optional sibling temporary file.  Permission bits are not modelled; no
claim mentions them. -/
structure FS where
  exe : List Nat
  tmp : Option (List Nat)
deriving DecidableEq

/-- Model of `Enclave::_write` (Linux/macOS) plus the file-system steps of
`write_binary`: `locate` abstracts the pure goblin container parsing and
section search of lines 120-132 / 142-148 (a pure function of the file
bytes, per spec section 4.1).  The returned trace lists the externally
visible file-system states in order: the initial state, then (on the success
path) the state after the temporary file is written, then the state after
the atomic rename.  Every error path returns before any file is touched. -/
def enclaveWrite (locate : List Nat → Except Error (Nat × Nat)) (c : Codec T)
    (fs : FS) (v : T) : Except Error Nat × List FS :=
  match locate fs.exe with
  | .error e => (.error e, [fs])
  | .ok (offset, size) =>
    match write_binary c fs.exe v offset size with
    | .error e => (.error e, [fs])
    | .ok (newData, n) =>
      (.ok n, [fs, { exe := fs.exe, tmp := some newData }, { exe := newData, tmp := none }])

/-- Outcome of a call to `_write` on an unsupported platform, where Rust
either returns a `Result` or unwinds. -/
inductive WriteOutcome where
  | ok (n : Nat)
  | err (e : Error)
  | panicked (msg : String)
deriving DecidableEq

/-- Model of the `#[cfg(not(any(target_os = "macos", target_os = "linux")))]`
fallback `_write` (lib.rs lines 153-156): it unconditionally unwinds with the
message "Not Supported" and never returns a value or an error. -/
def writeUnsupportedPlatform : WriteOutcome := .panicked "Not Supported"

/-- True exactly on the `err` outcome. -/
def WriteOutcome.isErrOutcome : WriteOutcome → Bool
  | .err _ => true
  | _ => false

/-- True exactly on the `panicked` outcome. -/
def WriteOutcome.isPanicOutcome : WriteOutcome → Bool
  | .panicked _ => true
  | _ => false

/-- The error carried by a failing decode, `none` on success. -/
def decodeErr : Except Error α → Option Error
  | .error e => some e
  | .ok _ => none

/-- Whether every state of a file-system trace keeps the executable equal to
`orig`. -/
def traceKeepsExe (tr : List FS) (orig : List Nat) : Bool :=
  tr.all (fun s => s.exe == orig)

/-- The payload length reported by a successful `write_binary`. -/
def wbLen : Except Error (List Nat × Nat) → Option Nat
  | .ok (_, n) => some n
  | .error _ => none

/-- The byte at index `i` of the image produced by a successful
`write_binary`. -/
def wbByte (i : Nat) : Except Error (List Nat × Nat) → Option Nat
  | .ok (d, _) => (d.drop i).head?
  | .error _ => none

/-- The payload type of the crate's doc example and of the spec's concrete
scenario: `{count: integer, label: text}` (`Config { some: u32, values:
String }` in the crate docs).  The label is kept as its UTF-8 byte sequence;
all labels appearing in the claims are ASCII, so the UTF-8 validation that
Rust's `String` deserialization performs never fails on them and is elided. -/
structure Config where
  count : Nat
  label : List Nat
deriving DecidableEq

/-- bincode (default configuration) serialization of `Config`: the `u32`
field as 4 little-endian bytes, then the string as a `u64` little-endian
byte length followed by the raw bytes. -/
def serConfig (x : Config) : List Nat :=
  natToBytesLE 4 x.count ++ natToBytesLE 8 x.label.length ++ x.label

/-- bincode deserialization of `Config`: read 4 bytes of `count`, 8 bytes of
string length, then that many label bytes; fail when the input is too short;
trailing bytes are ignored. -/
def deserConfig (bs : List Nat) : Option Config :=
  if 4 ≤ bs.length then
    let rest := bs.drop 4
    if 8 ≤ rest.length then
      let n := bytesToNatLE (rest.take 8)
      let rest2 := rest.drop 8
      if n ≤ rest2.length then
        some ⟨bytesToNatLE (bs.take 4), rest2.take n⟩
      else none
    else none
  else none

/-- The `Config` codec packaged for the generic operations. -/
def configCodec : Codec Config := ⟨serConfig, deserConfig⟩

/-- Flipping bit `bit` of the byte at index `i` of a byte list. -/
def flipBitAt (i bit : Nat) (bs : List Nat) : List Nat :=
  bs.set i (Nat.xor (bs.getD i 0) (2 ^ bit))

instance {ε α : Type _} [DecidableEq ε] [DecidableEq α] : DecidableEq (Except ε α) := fun a b =>
  match a, b with
  | .ok x, .ok y => if h : x = y then .isTrue (by simp [h]) else .isFalse (by simp [h])
  | .ok _, .error _ => .isFalse (by simp)
  | .error _, .ok _ => .isFalse (by simp)
  | .error x, .error y => if h : x = y then .isTrue (by simp [h]) else .isFalse (by simp [h])

/-! Helper lemmas about the byte-level operations. -/

theorem natToBytesLE_length (k n : Nat) : (natToBytesLE k n).length = k := by
  induction k generalizing n with
  | zero => rfl
  | succ k ih => simp [natToBytesLE, ih]

theorem bytesToNatLE_natToBytesLE (k n : Nat) (h : n < 2 ^ (8 * k)) :
    bytesToNatLE (natToBytesLE k n) = n := by
  induction k generalizing n with
  | zero =>
    simp [natToBytesLE, bytesToNatLE]
    omega
  | succ k ih =>
    have hdiv : n / 256 < 2 ^ (8 * k) := by
      rw [Nat.div_lt_iff_lt_mul (by norm_num)]
      calc n < 2 ^ (8 * (k + 1)) := h
        _ = 2 ^ (8 * k) * 256 := by ring
    simp only [natToBytesLE, bytesToNatLE, ih (n / 256) hdiv]
    omega

theorem siphash13_lt (msg : List Nat) : siphash13 msg < 2 ^ 64 := by
  have h : ∀ s : SipState, sipFinish s < 2 ^ 64 := by
    intro s
    simp only [sipFinish, w64]
    exact Nat.mod_lt _ (by norm_num)
  simpa [siphash13] using h _

theorem writeAt_eq (data f : List Nat) (offset : Nat) (h : offset ≤ data.length) :
    writeAt data offset f = data.take offset ++ f ++ data.drop (offset + f.length) := by
  simp [writeAt, Nat.sub_eq_zero_of_le h]

theorem drop_offset_writeAt (data f : List Nat) (offset : Nat) (h : offset ≤ data.length) :
    (writeAt data offset f).drop offset = f ++ data.drop (offset + f.length) := by
  rw [writeAt_eq data f offset h, List.append_assoc,
    List.drop_left' (by simp [List.length_take]; omega)]

theorem flipBitAt_append (i bit : Nat) (l₁ l₂ : List Nat) (h : i < l₁.length) :
    flipBitAt i bit (l₁ ++ l₂) = flipBitAt i bit l₁ ++ l₂ := by
  unfold flipBitAt
  rw [List.getD_append _ _ _ _ h, List.set_append]
  simp [h]

theorem length_flipBitAt (i bit : Nat) (l : List Nat) :
    (flipBitAt i bit l).length = l.length := by
  simp [flipBitAt]

/-- What a successful `write_binary` puts into the file image, and what the
next process reads back from it: the central frame-layout lemma.  The
section holding the `#[repr(C)]` struct has size `SIZE + 16`. -/
theorem readEnclave_write (c : Codec T) (v : T) (data : List Nat) (offset SIZE : Nat)
    (hfit : (c.ser v).length ≤ SIZE)
    (hoff : offset + (SIZE + 16) ≤ data.length)
    (hSZ : SIZE < 2 ^ 64) :
    write_binary c data v offset (SIZE + 16) =
      .ok (data.take offset ++ natToBytesLE 8 (c.ser v).length
            ++ natToBytesLE 8 (siphash13 (c.ser v)) ++ c.ser v
            ++ data.drop (offset + 16 + (c.ser v).length), (c.ser v).length) ∧
    readEnclave (data.take offset ++ natToBytesLE 8 (c.ser v).length
            ++ natToBytesLE 8 (siphash13 (c.ser v)) ++ c.ser v
            ++ data.drop (offset + 16 + (c.ser v).length)) offset SIZE =
      { len := (c.ser v).length, checksum := siphash13 (c.ser v),
        pack := c.ser v ++ (data.drop (offset + 16 + (c.ser v).length)).take
          (SIZE - (c.ser v).length) } := by
  have hoffle : offset ≤ data.length := by omega
  have hlen8 : ∀ n : Nat, (natToBytesLE 8 n).length = 8 := fun n => natToBytesLE_length 8 n
  have hframe : (natToBytesLE 8 (c.ser v).length ++ natToBytesLE 8 (siphash13 (c.ser v))
      ++ c.ser v).length = 16 + (c.ser v).length := by simp [hlen8]; omega
  have harith : offset + (16 + (c.ser v).length) = offset + 16 + (c.ser v).length := by omega
  have h1 : write_binary c data v offset (SIZE + 16)
      = .ok (data.take offset ++ natToBytesLE 8 (c.ser v).length
          ++ natToBytesLE 8 (siphash13 (c.ser v)) ++ c.ser v
          ++ data.drop (offset + 16 + (c.ser v).length), (c.ser v).length) := by
    simp only [write_binary]
    rw [if_neg (by omega), writeAt_eq data _ offset hoffle, hframe, harith]
    simp [List.append_assoc]
  refine ⟨h1, ?_⟩
  have hdrop : (data.take offset ++ natToBytesLE 8 (c.ser v).length
      ++ natToBytesLE 8 (siphash13 (c.ser v)) ++ c.ser v
      ++ data.drop (offset + 16 + (c.ser v).length)).drop offset
      = natToBytesLE 8 (c.ser v).length ++ (natToBytesLE 8 (siphash13 (c.ser v)) ++ (c.ser v
        ++ data.drop (offset + 16 + (c.ser v).length))) := by
    simp only [List.append_assoc]
    exact List.drop_left' (by simp [List.length_take]; omega)
  have hdrop8 : (data.take offset ++ natToBytesLE 8 (c.ser v).length
      ++ natToBytesLE 8 (siphash13 (c.ser v)) ++ c.ser v
      ++ data.drop (offset + 16 + (c.ser v).length)).drop (offset + 8)
      = natToBytesLE 8 (siphash13 (c.ser v)) ++ (c.ser v
        ++ data.drop (offset + 16 + (c.ser v).length)) := by
    rw [← List.drop_drop, hdrop, List.drop_left' (hlen8 _)]
  have hdrop16 : (data.take offset ++ natToBytesLE 8 (c.ser v).length
      ++ natToBytesLE 8 (siphash13 (c.ser v)) ++ c.ser v
      ++ data.drop (offset + 16 + (c.ser v).length)).drop (offset + 16)
      = c.ser v ++ data.drop (offset + 16 + (c.ser v).length) := by
    have h16 : offset + 16 = (offset + 8) + 8 := by omega
    rw [h16, ← List.drop_drop, hdrop8, List.drop_left' (hlen8 _)]
  simp only [readEnclave, hdrop, hdrop8, hdrop16]
  rw [List.take_left' (hlen8 _), List.take_left' (hlen8 _),
    bytesToNatLE_natToBytesLE 8 (c.ser v).length (by norm_num; omega),
    bytesToNatLE_natToBytesLE 8 (siphash13 (c.ser v)) (by norm_num; exact siphash13_lt _),
    List.take_append_eq_append_take, List.take_of_length_le hfit]

/-- Round-trip for the concrete `Config` codec, including bincode's
indifference to trailing bytes: serializing then deserializing with any
junk appended reconstructs the value. -/
theorem deserConfig_serConfig (x : Config) (h1 : x.count < 2 ^ 32)
    (h2 : x.label.length < 2 ^ 64)
    (junk : List Nat) : deserConfig (serConfig x ++ junk) = some x := by
  have h4 : ∀ n : Nat, (natToBytesLE 4 n).length = 4 := fun n => natToBytesLE_length 4 n
  have h8 : ∀ n : Nat, (natToBytesLE 8 n).length = 8 := fun n => natToBytesLE_length 8 n
  have htake4 : (serConfig x ++ junk).take 4 = natToBytesLE 4 x.count := by
    simp only [serConfig, List.append_assoc]
    exact List.take_left' (h4 _)
  have hdrop4 : (serConfig x ++ junk).drop 4
      = natToBytesLE 8 x.label.length ++ (x.label ++ junk) := by
    simp only [serConfig, List.append_assoc]
    exact List.drop_left' (h4 _)
  have hlen : 4 ≤ (serConfig x ++ junk).length := by
    simp [serConfig, h4, h8]
  simp only [deserConfig, if_pos hlen, hdrop4]
  rw [if_pos (by simp [h8])]
  rw [List.take_left' (h8 _), List.drop_left' (h8 _),
    bytesToNatLE_natToBytesLE 8 x.label.length (by norm_num; omega)]
  rw [if_pos (by simp)]
  rw [htake4, bytesToNatLE_natToBytesLE 4 x.count (by norm_num; omega),
    List.take_left' rfl]

theorem configCodec_ser_eq : configCodec.ser = serConfig := rfl

theorem configCodec_deser_eq : configCodec.deser = deserConfig := rfl

/-- The round-trip fact in the form the generic theorems consume. -/
theorem configRoundTrip (x : Config) (h1 : x.count < 2 ^ 32) (h2 : x.label.length < 2 ^ 64)
    (junk : List Nat) : configCodec.deser (configCodec.ser x ++ junk) = some x := by
  rw [configCodec_deser_eq, configCodec_ser_eq]
  exact deserConfig_serConfig x h1 h2 junk

/-! Concrete objects shared by several developments below. -/

set_option maxRecDepth 1000000
set_option maxHeartbeats 2000000

/-- The file image after `write_binary`, or the original image when it fails
(no file is modified on the error path). -/
def patched (c : Codec T) (data : List Nat) (v : T) (offset size : Nat) : List Nat :=
  match write_binary c data v offset size with
  | .ok (d, _) => d
  | .error _ => data

/-- An enclave state whose buffer was corrupted by a single bit flip. -/
def corruptBit (i bit : Nat) (e : Enclave) : Enclave :=
  { len := e.len, checksum := e.checksum, pack := flipBitAt i bit e.pack }

/-- The spec's concrete scenario value `{count: 43, label: "see"}` ("see" as
its ASCII bytes). -/
def cfgSee : Config := ⟨43, [115, 101, 101]⟩

/-- The spec's concrete scenario value `{count: 0, label: ""}`. -/
def cfgZero : Config := ⟨0, []⟩

/-- A 160-byte all-zero file image with a reserved region at offset 0 of
section size 144: capacity 128 plus the 16 header bytes. -/
def img0 : List Nat := List.replicate 160 0

/-- The file image after writing `cfgSee` into the region of `img0`. -/
def img1 : List Nat := patched configCodec img0 cfgSee 0 144

/-- The file image after then writing the shorter `cfgZero` into `img1`. -/
def img2 : List Nat := patched configCodec img1 cfgZero 0 144

/-- The enclave the next process reads back after the first write. -/
def eSee : Enclave := readEnclave img1 0 128

/-- A payload of serialized length 17 (12 header bytes of the encoding plus a
5-byte label). -/
def cfg17 : Config := ⟨7, [97, 97, 97, 97, 97]⟩

/-- An enclave whose stored checksum (0) disagrees with the hash of its first
20 buffer bytes and whose buffer does not deserialize (the embedded string
length field is 2 ^ 64 - 1). -/
def e3cex : Enclave := ⟨20, 0, [0, 0, 0, 0] ++ List.replicate 8 255 ++ List.replicate 20 0⟩

/-- A section locator that never finds the section, as for a binary built
without the reservation. -/
def locNotFound : List Nat → Except Error (Nat × Nat) :=
  fun _ => .error (.SectionNotFound "Binary Section not found")

/-- A small file-system state for witnesses. -/
def fsA : FS := ⟨List.replicate 8 0, none⟩

/-- C1: for every value whose bincode encoding fits in the capacity `SIZE`,
writing it with `write_binary` and decoding the `Enclave` read back from the
patched image returns `Ok` of an equal value.  The hypotheses are the bincode
contract (deserialization of the encoding with any trailing junk restores the
value), the capacity bound, and the region lying inside the file. -/
theorem c1_write_decode_roundtrip (T : Type) (c : Codec T) (v : T) (data : List Nat)
    (offset SIZE : Nat)
    (hrt : ∀ junk, c.deser (c.ser v ++ junk) = some v)
    (hfit : (c.ser v).length ≤ SIZE)
    (hoff : offset + (SIZE + 16) ≤ data.length)
    (hSZ : SIZE < 2 ^ 64) :
    ∃ d, write_binary c data v offset (SIZE + 16) = .ok (d, (c.ser v).length) ∧
      (readEnclave d offset SIZE).decode c = .ok v := by
  obtain ⟨h1, h2⟩ := readEnclave_write c v data offset SIZE hfit hoff hSZ
  refine ⟨_, h1, ?_⟩
  rw [h2]
  simp only [Enclave.decode, hrt]
  rw [List.take_left' rfl, if_pos rfl]

/-- Witness for C1 at the concrete scenario value. -/
theorem c1_witness :
    ∃ d, write_binary configCodec img0 cfgSee 0 (128 + 16)
      = .ok (d, (configCodec.ser cfgSee).length) ∧
      (readEnclave d 0 128).decode configCodec = .ok cfgSee :=
  c1_write_decode_roundtrip Config configCodec cfgSee img0 0 128
    (fun junk => configRoundTrip cfgSee (by decide : cfgSee.count < 2 ^ 32)
      (by decide : cfgSee.label.length < 2 ^ 64) junk)
    (by decide : (configCodec.ser cfgSee).length ≤ 128)
    (by decide : 0 + (128 + 16) ≤ img0.length)
    (by decide : 128 < 2 ^ 64)

/-- C2 (evaluation of the code at the claim's boundary): for a region of size
32, a payload of serialized length 17 = 32 - 15 is accepted — `write_binary`
returns `Ok 17` — and the written frame of 16 + 17 = 33 bytes overruns the
region: byte 32 of the image, originally 0, becomes the last payload byte 97.
Only a payload longer than the whole region fails, and the error then carries
the full region size 32, not the capacity 32 - 16. -/
theorem c2_code_behaviour :
    wbLen (write_binary configCodec (List.replicate 40 0) cfg17 0 32) = some 17 ∧
    wbByte 32 (write_binary configCodec (List.replicate 40 0) cfg17 0 32) = some 97 ∧
    (List.replicate 40 0).getD 32 0 = 0 ∧
    write_binary configCodec (List.replicate 40 0) (⟨7, List.replicate 21 97⟩ : Config) 0 32
      = .error (.SectionSizeExceeded 33 32) := by decide

/-- C3 counterexample: an enclave whose stored checksum disagrees with the
hash of its first `len` bytes and whose buffer does not deserialize; `decode`
returns the deserialization error, not the checksum-mismatch error the claim
demands when the checksum disagrees. -/
theorem c3_counterexample :
    e3cex.decode configCodec = .error .Deserialize ∧
    siphash13 (e3cex.pack.take e3cex.len) ≠ e3cex.checksum ∧
    e3cex.decode configCodec ≠ .error .PayloadChecksum := by decide

/-- C3 amended: `decode` attempts deserialization of the whole buffer first
and surfaces its failure without consulting the checksum; only when
deserialization succeeds does it compare the checksum recomputed over the
first `len` bytes, returning the value on agreement and the
checksum-mismatch error on disagreement. -/
theorem c3_amended_decode_order (T : Type) (c : Codec T) (e e' : Enclave) (v : T)
    (hd : c.deser e.pack = none)
    (hd' : c.deser e'.pack = some v) :
    e.decode c = .error .Deserialize ∧
    (siphash13 (e'.pack.take e'.len) = e'.checksum → e'.decode c = .ok v) ∧
    (siphash13 (e'.pack.take e'.len) ≠ e'.checksum → e'.decode c = .error .PayloadChecksum) := by
  unfold Enclave.decode
  rw [hd, hd']
  refine ⟨rfl, fun h => ?_, fun h => ?_⟩
  · show (if siphash13 (e'.pack.take e'.len) = e'.checksum then Except.ok v
      else Except.error Error.PayloadChecksum) = Except.ok v
    rw [if_pos h]
  · show (if siphash13 (e'.pack.take e'.len) = e'.checksum then Except.ok v
      else Except.error Error.PayloadChecksum) = Except.error Error.PayloadChecksum
    rw [if_neg h]

/-- Witness for C3's amended theorem at two concrete states. -/
theorem c3_amended_witness :
    e3cex.decode configCodec = .error .Deserialize ∧ eSee.decode configCodec = .ok cfgSee :=
  ⟨(c3_amended_decode_order Config configCodec e3cex eSee cfgSee
      (by decide : configCodec.deser e3cex.pack = none)
      (by decide : configCodec.deser eSee.pack = some cfgSee)).1,
   (c3_amended_decode_order Config configCodec e3cex eSee cfgSee
      (by decide : configCodec.deser e3cex.pack = none)
      (by decide : configCodec.deser eSee.pack = some cfgSee)).2.1
      (by decide : siphash13 (eSee.pack.take eSee.len) = eSee.checksum)⟩

/-- C4 counterexample: after the successful write of `cfgSee`, flipping bit 7
of buffer byte 11 — the top byte of the embedded string-length field, well
inside the first `len` = 15 bytes — makes `decode` fail with the
deserialization error, not with `PayloadChecksum` as the claim demands. -/
theorem c4_counterexample :
    (corruptBit 11 7 eSee).decode configCodec = .error .Deserialize ∧
    (corruptBit 11 7 eSee).decode configCodec ≠ .error .PayloadChecksum ∧
    11 < eSee.len := by decide

/-- C4 amended: flipping any single bit within the first `len` bytes of the
buffer written by a successful write makes `decode` fail — with either the
deserialization error or the checksum-mismatch error, never `Ok` — provided
the flip changes the SipHash-1-3 checksum of the payload prefix. -/
theorem c4_amended_corruption (T : Type) (c : Codec T) (v : T) (data : List Nat)
    (offset SIZE i bit : Nat)
    (hfit : (c.ser v).length ≤ SIZE)
    (hoff : offset + (SIZE + 16) ≤ data.length)
    (hSZ : SIZE < 2 ^ 64)
    (hi : i < (c.ser v).length)
    (hhash : siphash13 (flipBitAt i bit (c.ser v)) ≠ siphash13 (c.ser v)) :
    decodeErr ((corruptBit i bit
        (readEnclave (patched c data v offset (SIZE + 16)) offset SIZE)).decode c)
      = some .Deserialize ∨
    decodeErr ((corruptBit i bit
        (readEnclave (patched c data v offset (SIZE + 16)) offset SIZE)).decode c)
      = some .PayloadChecksum := by
  obtain ⟨h1, h2⟩ := readEnclave_write c v data offset SIZE hfit hoff hSZ
  have hp : patched c data v offset (SIZE + 16)
      = data.take offset ++ natToBytesLE 8 (c.ser v).length
        ++ natToBytesLE 8 (siphash13 (c.ser v)) ++ c.ser v
        ++ data.drop (offset + 16 + (c.ser v).length) := by
    unfold patched
    rw [h1]
  have hflip : flipBitAt i bit (c.ser v
        ++ (data.drop (offset + 16 + (c.ser v).length)).take (SIZE - (c.ser v).length))
      = flipBitAt i bit (c.ser v)
        ++ (data.drop (offset + 16 + (c.ser v).length)).take (SIZE - (c.ser v).length) :=
    flipBitAt_append _ _ _ _ hi
  rw [hp, h2]
  simp only [corruptBit, hflip, Enclave.decode]
  cases hd : c.deser (flipBitAt i bit (c.ser v)
      ++ (data.drop (offset + 16 + (c.ser v).length)).take (SIZE - (c.ser v).length)) with
  | none => exact Or.inl rfl
  | some w =>
    refine Or.inr ?_
    rw [List.take_left' (length_flipBitAt i bit (c.ser v))]
    show decodeErr (if siphash13 (flipBitAt i bit (c.ser v)) = siphash13 (c.ser v)
        then Except.ok w else Except.error Error.PayloadChecksum) = some Error.PayloadChecksum
    rw [if_neg hhash]
    rfl

/-- Witness for C4's amended theorem: flipping bit 0 of byte 0 of the written
buffer. -/
theorem c4_amended_witness :
    decodeErr ((corruptBit 0 0
        (readEnclave (patched configCodec img0 cfgSee 0 (128 + 16)) 0 128)).decode configCodec)
      = some .Deserialize ∨
    decodeErr ((corruptBit 0 0
        (readEnclave (patched configCodec img0 cfgSee 0 (128 + 16)) 0 128)).decode configCodec)
      = some .PayloadChecksum :=
  c4_amended_corruption Config configCodec cfgSee img0 0 128 0 0
    (by decide : (configCodec.ser cfgSee).length ≤ 128)
    (by decide : 0 + (128 + 16) ≤ img0.length)
    (by decide : 128 < 2 ^ 64)
    (by decide : 0 < (configCodec.ser cfgSee).length)
    (by decide : siphash13 (flipBitAt 0 0 (configCodec.ser cfgSee))
      ≠ siphash13 (configCodec.ser cfgSee))

/-- C5 counterexample: on an unsupported platform the write path does not
return a reported error — it unwinds (Rust `panic!`), contradicting the
claim that it fails "by returning a reported error — it does not crash or
panic". -/
theorem c5_counterexample :
    writeUnsupportedPlatform.isErrOutcome = false ∧
    writeUnsupportedPlatform.isPanicOutcome = true := ⟨rfl, rfl⟩

/-- C5 amended: on any platform outside the two supported container formats
every call to write fails immediately and deterministically by panicking
with the message "Not Supported" (it never returns, not even an error),
while `decode` continues to work from the in-memory region. -/
theorem c5_amended_unsupported_panics :
    writeUnsupportedPlatform = .panicked "Not Supported" ∧
    eSee.decode configCodec = .ok cfgSee := ⟨rfl, by decide⟩

/-- C6: when the section lookup fails with `SectionNotFound`, the write
returns that error and the file-system state is untouched (the executable is
byte-identical); and in general every state of the write's file-system trace
except the final post-rename one keeps the executable equal to its original
bytes — the atomic rename is the only externally visible mutation. -/
theorem c6_write_error_atomicity (T : Type) (c c2 : Codec T)
    (locate locate2 : List Nat → Except Error (Nat × Nat)) (fs fs2 : FS) (v v2 : T)
    (msg : String)
    (hloc : locate fs.exe = .error (.SectionNotFound msg)) :
    enclaveWrite locate c fs v = (.error (.SectionNotFound msg), [fs]) ∧
    traceKeepsExe ((enclaveWrite locate2 c2 fs2 v2).2.dropLast) fs2.exe = true := by
  constructor
  · unfold enclaveWrite
    rw [hloc]
  · unfold enclaveWrite
    cases hl : locate2 fs2.exe with
    | error e => simp [traceKeepsExe]
    | ok os =>
      obtain ⟨offset, size⟩ := os
      cases hw : write_binary c2 fs2.exe v2 offset size with
      | error e => simp [traceKeepsExe, hw]
      | ok dn =>
        obtain ⟨d, n⟩ := dn
        simp [traceKeepsExe, hw, List.dropLast]

/-- Witness for C6: a locator that cannot find the section leaves the state
unchanged, and a successful write trace keeps the executable intact until the
rename. -/
theorem c6_witness :
    enclaveWrite locNotFound configCodec fsA cfgSee
      = (.error (.SectionNotFound "Binary Section not found"), [fsA]) ∧
    traceKeepsExe ((enclaveWrite (fun _ => .ok (0, 144)) configCodec
      ⟨img0, none⟩ cfgSee).2.dropLast) img0 = true :=
  c6_write_error_atomicity Config configCodec configCodec locNotFound
    (fun _ => .ok (0, 144)) fsA ⟨img0, none⟩ cfgSee cfgSee "Binary Section not found" rfl

/-- Dropping past `offset + k` of a patched image, for `k` within the frame:
what remains is the frame's tail followed by the original bytes after the
frame. -/
theorem drop_writeAt_add (data f : List Nat) (offset k : Nat)
    (h : offset ≤ data.length) (hk : k ≤ f.length) :
    (writeAt data offset f).drop (offset + k) = f.drop k ++ data.drop (offset + f.length) := by
  rw [← List.drop_drop, drop_offset_writeAt data f offset h,
    List.drop_append_eq_append_drop, Nat.sub_eq_zero_of_le hk, List.drop_zero]

/-- C7: a successful write places at the region's offset exactly an 8-byte
little-endian (native order on the supported targets) length field, then an
8-byte checksum field, then the payload bytes; every byte of the image from
`offset + 16 + length` on — in particular the rest of the region — and every
byte before `offset` keeps its original value. -/
theorem c7_frame_layout (T : Type) (c : Codec T) (v : T) (data : List Nat)
    (offset size : Nat)
    (hfit : (c.ser v).length + 16 ≤ size)
    (hoff : offset + size ≤ data.length) :
    ∃ d, write_binary c data v offset size = .ok (d, (c.ser v).length) ∧
      d.take offset = data.take offset ∧
      (d.drop offset).take 8 = natToBytesLE 8 (c.ser v).length ∧
      (d.drop (offset + 8)).take 8 = natToBytesLE 8 (siphash13 (c.ser v)) ∧
      (d.drop (offset + 16)).take (c.ser v).length = c.ser v ∧
      d.drop (offset + 16 + (c.ser v).length) = data.drop (offset + 16 + (c.ser v).length) ∧
      (d.drop (offset + 16 + (c.ser v).length)).take (size - 16 - (c.ser v).length)
        = (data.drop (offset + 16 + (c.ser v).length)).take (size - 16 - (c.ser v).length) := by
  have hoffle : offset ≤ data.length := by omega
  have hlen8 : ∀ n : Nat, (natToBytesLE 8 n).length = 8 := fun n => natToBytesLE_length 8 n
  have hframe : (natToBytesLE 8 (c.ser v).length ++ natToBytesLE 8 (siphash13 (c.ser v))
      ++ c.ser v).length = 16 + (c.ser v).length := by simp [hlen8]; omega
  have h1 : write_binary c data v offset size
      = .ok (writeAt data offset (natToBytesLE 8 (c.ser v).length
          ++ natToBytesLE 8 (siphash13 (c.ser v)) ++ c.ser v), (c.ser v).length) := by
    simp only [write_binary]
    rw [if_neg (by omega)]
  have hfull : (writeAt data offset (natToBytesLE 8 (c.ser v).length
      ++ natToBytesLE 8 (siphash13 (c.ser v)) ++ c.ser v)).drop (offset + 16 + (c.ser v).length)
      = data.drop (offset + 16 + (c.ser v).length) := by
    have harith : offset + 16 + (c.ser v).length = offset + (16 + (c.ser v).length) := by omega
    rw [harith, drop_writeAt_add data _ offset (16 + (c.ser v).length) hoffle (by omega),
      List.drop_eq_nil_of_le (by omega), List.nil_append, hframe]
  refine ⟨_, h1, ?_, ?_, ?_, ?_, hfull, by rw [hfull]⟩
  · rw [writeAt_eq data _ offset hoffle, List.append_assoc]
    exact List.take_left' (by simp [List.length_take]; omega)
  · rw [drop_offset_writeAt data _ offset hoffle]
    simp only [List.append_assoc]
    exact List.take_left' (hlen8 _)
  · rw [drop_writeAt_add data _ offset 8 hoffle (by omega)]
    have h8 : (natToBytesLE 8 (c.ser v).length ++ natToBytesLE 8 (siphash13 (c.ser v))
        ++ c.ser v).drop 8 = natToBytesLE 8 (siphash13 (c.ser v)) ++ c.ser v := by
      simp only [List.append_assoc]
      exact List.drop_left' (hlen8 _)
    rw [h8, List.append_assoc]
    exact List.take_left' (hlen8 _)
  · rw [drop_writeAt_add data _ offset 16 hoffle (by omega)]
    have h16 : (natToBytesLE 8 (c.ser v).length ++ natToBytesLE 8 (siphash13 (c.ser v))
        ++ c.ser v).drop 16 = c.ser v :=
      List.drop_left' (by simp [hlen8])
    rw [h16]
    exact List.take_left' rfl

/-- Witness for C7 at the concrete scenario write. -/
theorem c7_witness :
    ∃ d, write_binary configCodec img0 cfgSee 0 144 = .ok (d, (configCodec.ser cfgSee).length) ∧
      d.take 0 = img0.take 0 ∧
      (d.drop 0).take 8 = natToBytesLE 8 (configCodec.ser cfgSee).length ∧
      (d.drop (0 + 8)).take 8 = natToBytesLE 8 (siphash13 (configCodec.ser cfgSee)) ∧
      (d.drop (0 + 16)).take (configCodec.ser cfgSee).length = configCodec.ser cfgSee ∧
      d.drop (0 + 16 + (configCodec.ser cfgSee).length)
        = img0.drop (0 + 16 + (configCodec.ser cfgSee).length) ∧
      (d.drop (0 + 16 + (configCodec.ser cfgSee).length)).take
          (144 - 16 - (configCodec.ser cfgSee).length)
        = (img0.drop (0 + 16 + (configCodec.ser cfgSee).length)).take
          (144 - 16 - (configCodec.ser cfgSee).length) :=
  c7_frame_layout Config configCodec cfgSee img0 0 144
    (by decide : (configCodec.ser cfgSee).length + 16 ≤ 144)
    (by decide : 0 + 144 ≤ img0.length)

/-- C8: `decode_or_default` returns the decoded value whenever `decode`
succeeds and the default value whenever `decode` fails, whatever the error. -/
theorem c8_decode_or_default_total (T : Type) (c : Codec T) (e₁ e₂ : Enclave)
    (v dflt : T) (err : Error)
    (hok : e₁.decode c = .ok v) (herr : e₂.decode c = .error err) :
    e₁.decode_or_default c dflt = v ∧ e₂.decode_or_default c dflt = dflt := by
  unfold Enclave.decode_or_default
  rw [hok, herr]
  exact ⟨rfl, rfl⟩

/-- Witness for C8: a state that decodes and a fresh state that fails. -/
theorem c8_witness :
    eSee.decode_or_default configCodec cfgZero = cfgSee ∧
    (Enclave.new 128).decode_or_default configCodec cfgZero = cfgZero :=
  c8_decode_or_default_total Config configCodec eSee (Enclave.new 128) cfgSee cfgZero
    .PayloadChecksum
    (by decide : eSee.decode configCodec = .ok cfgSee)
    (by decide : (Enclave.new 128).decode configCodec = .error .PayloadChecksum)

/-- C9: with capacity 128, after writing `{count := 43, label := "see"}` the
region decodes to that value; after then writing the shorter
`{count := 0, label := ""}` the region decodes to the new value even though a
stale byte of the longer earlier payload (byte 12 = 115, the letter s) is
still present in the buffer past the new length. -/
theorem c9_shrinking_write_scenario :
    (readEnclave img1 0 128).decode configCodec = .ok cfgSee ∧
    (readEnclave img2 0 128).decode configCodec = .ok cfgZero ∧
    (readEnclave img2 0 128).pack.getD 12 0 = 115 := by decide

/-- C10: an enclave as built by `Enclave::new()` — zero length, zero
checksum, zeroed buffer — never decodes successfully, for every payload
codec and every capacity: either deserialization of the zero buffer fails,
or the checksum over the empty prefix (a nonzero SipHash constant) differs
from the stored 0. -/
theorem c10_fresh_enclave_never_decodes (T : Type) (c : Codec T) (SIZE : Nat) :
    (Enclave.new SIZE).decode c = .error .Deserialize ∨
    (Enclave.new SIZE).decode c = .error .PayloadChecksum := by
  unfold Enclave.decode
  cases hd : c.deser (Enclave.new SIZE).pack with
  | none => exact Or.inl rfl
  | some v =>
    refine Or.inr ?_
    show (if siphash13 ((Enclave.new SIZE).pack.take (Enclave.new SIZE).len)
        = (Enclave.new SIZE).checksum then Except.ok v else Except.error Error.PayloadChecksum)
      = Except.error Error.PayloadChecksum
    have hlen : (Enclave.new SIZE).len = 0 := rfl
    have hchk : (Enclave.new SIZE).checksum = 0 := rfl
    rw [hlen, hchk, List.take_zero, if_neg (by decide : ¬ (siphash13 [] = 0))]
